import Mathlib

/-!
Shallow embedding of the Flappy Bird simulation core from
src/src/FlappyBird.jsx. JS numbers are modelled as exact rationals;
Math.round is floor (x + 1/2); each Math.random() outcome is an explicit
value r with 0 ≤ r < 1 drawn from a stream rng : ℕ → ℚ indexed by a
counter threaded through the state. JS object identity for pipes is
modelled by a sequence id allocated from a nextId counter, and the
scoredSetRef Set keyed by object identity becomes a list of those ids.
The localStorage best-score writes are logged in a writes list so that
persistence behaviour is visible in the state. A tick that would throw
an uncaught JS exception is modelled as none.
-/

namespace Flappy

/-- JS Math.round on exact rationals: round half toward positive infinity. -/
def jround (q : ℚ) : ℤ := ⌊q + 1/2⌋

/-- The difficulty mode selector: 'easy' | 'normal' | 'hard'. -/
inductive Mode
  | easy
  | normal
  | hard
deriving DecidableEq

/-- The scale-dependent gameplay constants held in worldRef (FlappyBird.jsx
lines 56-66, recomputed by the effect at lines 99-111). Fields the code
produces with Math.round or integer max are integers. -/
structure Profile where
  gravity : ℚ
  flap : ℚ
  pipeGap : ℤ
  pipeWidth : ℤ
  pipeSpacing : ℤ
  speed : ℚ
  groundY : ℤ
  skyColor : String
deriving DecidableEq

/-- Gap factor per mode (line 103): easy 1.35, hard 0.85, normal 1.0. -/
def gapFactor : Mode → ℚ
  | Mode.easy => 135 / 100
  | Mode.hard => 85 / 100
  | Mode.normal => 1

/-- Scroll-speed factor per mode (line 109): easy 2.4, hard 3.4, normal 3.0. -/
def speedFactor : Mode → ℚ
  | Mode.easy => 12 / 5
  | Mode.hard => 17 / 5
  | Mode.normal => 3

/-- Sky colour per mode (line 111). -/
def skyOf : Mode → String
  | Mode.easy => "#FFF7BF"
  | Mode.hard => "#9CA3AF"
  | Mode.normal => "#87CEEB"

/-- The profile recomputation from the size-or-mode effect (lines 99-111):
s = H / 480, gravity = 0.5*s, flap = -9*s,
pipeGap = round(max(120*s, round(0.28*H)) * gapFactor),
pipeWidth = max(54, round(0.06*W)), pipeSpacing = max(260, round(0.32*W)),
speed = modeFactor * s, groundY = round(H - max(36, 0.08*H)). -/
def computeProfile (mode : Mode) (W H : ℚ) : Profile :=
  let s : ℚ := H / 480
  let baseGap : ℚ := max (120 * s) ((jround (H * (28 / 100)) : ℚ))
  { gravity := 1 / 2 * s
    flap := -9 * s
    pipeGap := jround (baseGap * gapFactor mode)
    pipeWidth := max 54 (jround (W * (6 / 100)))
    pipeSpacing := max 260 (jround (W * (32 / 100)))
    speed := speedFactor mode * s
    groundY := jround (H - max 36 (8 / 100 * H))
    skyColor := skyOf mode }

/-- One obstacle from pipesRef (line 51): the { x, topH } record plus its
JS object identity, modelled as a sequence id. -/
structure Pipe where
  id : ℕ
  x : ℚ
  topH : ℤ
deriving DecidableEq

/-- The bird from birdRef (line 50). -/
structure Bird where
  x : ℚ
  y : ℚ
  vy : ℚ
  r : ℚ
  wingAngle : ℚ
deriving DecidableEq

/-- The whole mutable game state: bird, pipe queue, identity counter,
scored-identity set, score, best score, localStorage write log, the
running/paused/gameOver flags, the cosmetic tick counter, the current
profile, the display size and the Math.random() stream position. -/
structure World where
  bird : Bird
  pipes : List Pipe
  nextId : ℕ
  scored : List ℕ
  score : ℕ
  best : ℕ
  writes : List ℕ
  running : Bool
  paused : Bool
  gameOver : Bool
  t : ℕ
  prof : Profile
  dispW : ℚ
  dispH : ℚ
  ri : ℕ
deriving DecidableEq

/-- randRange (lines 134-136): Math.floor(r * (max - min + 1)) + min for a
Math.random() outcome r. -/
def randRange (r : ℚ) (a b : ℤ) : ℤ := ⌊r * ((b - a + 1 : ℤ) : ℚ)⌋ + a

/-- makePipeAtX (lines 149-165): margins of 6% of the viewport height, the
allowed top-height range clamped to be non-empty, then a uniformly random
integer choice in that range. Consumes one rng outcome at index ri and
allocates identity nid. -/
def makePipeAtX (prof : Profile) (H : ℚ) (rng : ℕ → ℚ) (x : ℚ) (nid ri : ℕ) :
    Pipe × ℕ × ℕ :=
  let marginTop : ℤ := jround (6 / 100 * H)
  let marginBottom : ℤ := jround (6 / 100 * H)
  let maxTopAllowed : ℤ := prof.groundY - marginBottom - prof.pipeGap
  let minTopAllowed : ℤ := marginTop
  let minTop : ℤ := max 0 (min minTopAllowed maxTopAllowed)
  let maxTop : ℤ := max minTop maxTopAllowed
  let topH : ℤ := randRange (rng ri) minTop maxTop
  (⟨nid, x, topH⟩, nid + 1, ri + 1)

/-- The for-loop body of generateInitialPipes: n pipes spaced pipeSpacing
apart starting at x. -/
def genPipesAux (prof : Profile) (H : ℚ) (rng : ℕ → ℚ) :
    ℕ → ℚ → ℕ → ℕ → List Pipe × ℕ × ℕ
  | 0, _, nid, ri => ([], nid, ri)
  | n + 1, x, nid, ri =>
    let m := makePipeAtX prof H rng x nid ri
    let rest := genPipesAux prof H rng n (x + (prof.pipeSpacing : ℚ)) m.2.1 m.2.2
    (m.1 :: rest.1, rest.2.1, rest.2.2)

/-- generateInitialPipes (lines 138-147): six pipes starting off-screen to
the right at W + round(0.6 * spacing). -/
def generateInitialPipes (W H : ℚ) (prof : Profile) (rng : ℕ → ℚ) (nid ri : ℕ) :
    List Pipe × ℕ × ℕ :=
  let startX : ℚ := W + (jround ((prof.pipeSpacing : ℚ) * (6 / 10)) : ℚ)
  genPipesAux prof H rng 6 startX nid ri

/-- The recycle while-loop (lines 321-325): while the front pipe's right
edge is past -10, shift it and append a fresh pipe one spacing after the
current last pipe. One fuel unit per iteration; update passes far more
fuel than any realistic state needs, so none means the JS TypeError
thrown when the loop shifts the only pipe and then reads
pipes[pipes.length - 1].x on the now-empty array. -/
def recycleLoop (prof : Profile) (H : ℚ) (rng : ℕ → ℚ) :
    ℕ → List Pipe → ℕ → ℕ → Option (List Pipe × ℕ × ℕ)
  | 0, _, _, _ => none
  | _ + 1, [], nid, ri => some ([], nid, ri)
  | fuel + 1, p :: rest, nid, ri =>
    if p.x + (prof.pipeWidth : ℚ) < -10 then
      match rest.getLast? with
      | none => none
      | some lastP =>
        let m := makePipeAtX prof H rng (lastP.x + (prof.pipeSpacing : ℚ)) nid ri
        recycleLoop prof H rng fuel (rest ++ [m.1]) m.2.1 m.2.2
    else some (p :: rest, nid, ri)

/-- Recycle followed by the empty-queue refill (lines 320-330). -/
def recycleRefill (W H : ℚ) (prof : Profile) (rng : ℕ → ℚ) (ps : List Pipe)
    (nid ri : ℕ) : Option (List Pipe × ℕ × ℕ) :=
  match recycleLoop prof H rng (ps.length + 1000) ps nid ri with
  | none => none
  | some g => if g.1.isEmpty then some (generateInitialPipes W H prof rng g.2.1 g.2.2) else some g

/-- Physics integration and wing decay (lines 307-312): velocity is
integrated before position. -/
def integrateBird (prof : Profile) (b : Bird) : Bird :=
  let vy := b.vy + prof.gravity
  let y := b.y + vy
  let wing := if b.wingAngle < 0 then min (b.wingAngle + 2 / 10) 0 else b.wingAngle
  { b with vy := vy, y := y, wingAngle := wing }

/-- Scrolling every pipe left by the profile speed (lines 316-318). -/
def movePipes (prof : Profile) (ps : List Pipe) : List Pipe :=
  ps.map fun p => { p with x := p.x - prof.speed }

/-- Accumulator for the per-obstacle collision/score loop. -/
structure Acc where
  score : ℕ
  best : ℕ
  writes : List ℕ
  scored : List ℕ
  died : Bool
deriving DecidableEq

/-- The per-obstacle collision and scoring loop (lines 344-375). A
collision (horizontal overlap with the bird outside the gap) stops the
loop with died set: the endGame-and-return. Otherwise a pipe whose
center passed the bird's x and whose identity is uncredited scores one
point, and a new best is persisted (the writes log). -/
def scoreLoop (prof : Profile) (b : Bird) : List Pipe → Acc → Acc
  | [], acc => acc
  | p :: rest, acc =>
    if (b.x + b.r > p.x ∧ b.x - b.r < p.x + (prof.pipeWidth : ℚ)) ∧
        (b.y - b.r < (p.topH : ℚ) ∨ b.y + b.r > ((p.topH + prof.pipeGap : ℤ) : ℚ)) then
      { acc with died := true }
    else
      let acc' :=
        if p.x + (prof.pipeWidth : ℚ) / 2 < b.x ∧ p.id ∉ acc.scored then
          let next := acc.score + 1
          if next > acc.best then
            { score := next, best := next, writes := acc.writes ++ [next],
              scored := p.id :: acc.scored, died := acc.died }
          else
            { acc with score := next, scored := p.id :: acc.scored }
        else acc
      scoreLoop prof b rest acc'

/-- endGame (lines 380-386): idempotent via the gameOver guard; entering
the terminal state pauses the tick scheduler. -/
def endGame (w : World) : World :=
  if w.gameOver then w else { w with gameOver := true, paused := true }

/-- The ceiling clamp (lines 339-342): a soft bound that zeroes the
vertical velocity, not fatal. -/
def clampCeil (b : Bird) : Bird :=
  if b.y - b.r < 0 then { b with y := b.r, vy := 0 } else b

/-- One simulation tick: update() (lines 300-378). Steps in source order:
the running/paused guard, physics integration, pipe scroll, recycle,
empty-queue refill, ground collision (clamp, endGame, early return),
ceiling clamp, the per-pipe collision/score loop (early return on
collision), and finally the cosmetic tick counter. none is the uncaught
exception from the recycle loop. -/
def update (rng : ℕ → ℚ) (w : World) : Option World :=
  if !w.running || w.paused then some w
  else
    let b := integrateBird w.prof w.bird
    let moved := movePipes w.prof w.pipes
    match recycleRefill w.dispW w.dispH w.prof rng moved w.nextId w.ri with
    | none => none
    | some (ps, nid, ri) =>
      if b.y + b.r > (w.prof.groundY : ℚ) then
        some (endGame { w with bird := { b with y := (w.prof.groundY : ℚ) - b.r },
                               pipes := ps, nextId := nid, ri := ri })
      else
        let b2 := clampCeil b
        let res := scoreLoop w.prof b2 ps ⟨w.score, w.best, w.writes, w.scored, false⟩
        if res.died then
          some (endGame { w with bird := b2, pipes := ps, nextId := nid, ri := ri,
                                 score := res.score, best := res.best,
                                 writes := res.writes, scored := res.scored })
        else
          some { w with bird := b2, pipes := ps, nextId := nid, ri := ri,
                        score := res.score, best := res.best,
                        writes := res.writes, scored := res.scored, t := w.t + 1 }

/-- The useState initial read of the persisted best score (lines 42-47):
Number(localStorage.getItem('flappy_best') || 0). -/
def initBest (stored : Option ℕ) : ℕ := stored.getD 0

/-- The mount effect (lines 87-131): compute the profile, place and scale
the bird, seed six pipes, clear the scoring state, start running. -/
def initWorld (mode : Mode) (W H : ℚ) (rng : ℕ → ℚ) (stored : Option ℕ) : World :=
  let prof := computeProfile mode W H
  let s : ℚ := H / 480
  let g := generateInitialPipes W H prof rng 0 0
  { bird := { x := (jround (W * (18 / 100)) : ℚ), y := (jround (H * (1 / 2)) : ℚ),
              vy := 0, r := ((max 14 (jround (16 * s)) : ℤ) : ℚ), wingAngle := 0 },
    pipes := g.1, nextId := g.2.1, scored := [], score := 0,
    best := initBest stored, writes := [],
    running := true, paused := false, gameOver := false, t := 0,
    prof := prof, dispW := W, dispH := H, ri := g.2.2 }

/-- resetGame (lines 167-181): keep the bird radius, the best score and
the tick counter; re-seed the pipes and clear the scoring state. -/
def resetGame (rng : ℕ → ℚ) (w : World) : World :=
  let g := generateInitialPipes w.dispW w.dispH w.prof rng w.nextId w.ri
  { w with bird := { x := (jround (w.dispW * (18 / 100)) : ℚ),
                     y := (jround (w.dispH * (1 / 2)) : ℚ),
                     vy := 0, r := w.bird.r, wingAngle := 0 },
           pipes := g.1, nextId := g.2.1, ri := g.2.2,
           scored := [], gameOver := false, score := 0 }

/-- flap (lines 214-232): start a session when idle, restart when
terminal, otherwise an instantaneous velocity set guarded by paused. -/
def flap (rng : ℕ → ℚ) (w : World) : World :=
  if !w.running then resetGame rng { w with running := true, paused := false }
  else if w.gameOver then resetGame rng { w with paused := false }
  else if !w.paused then
    { w with bird := { w.bird with vy := w.prof.flap, wingAngle := -(8 / 10) } }
  else w

/-- Whether a flap call fires the flap sound effect (line 230): only on
the impulse branch. -/
def flapSound (w : World) : Bool := w.running && !w.gameOver && !w.paused

/-- togglePause (lines 388-391). -/
def togglePause (w : World) : World :=
  if !w.running then w else { w with paused := !w.paused }

/-- The R-key / Restart-button handler (lines 249-259 and 629-639):
resetGame plus running := true, paused := false. -/
def resetFull (rng : ℕ → ℚ) (w : World) : World :=
  { resetGame rng w with running := true, paused := false }

/-- A re-run of the size-or-mode effect on a live world (viewport resize
or mode change, lines 87-131): the best score, the persisted-write log,
the cosmetic tick counter and the RNG position survive; everything else
is re-seeded, and fresh pipe objects get fresh identities. -/
def reinitWorld (mode : Mode) (W H : ℚ) (rng : ℕ → ℚ) (w : World) : World :=
  let prof := computeProfile mode W H
  let s : ℚ := H / 480
  let g := generateInitialPipes W H prof rng w.nextId w.ri
  { bird := { x := (jround (W * (18 / 100)) : ℚ), y := (jround (H * (1 / 2)) : ℚ),
              vy := 0, r := ((max 14 (jround (16 * s)) : ℤ) : ℚ), wingAngle := 0 },
    pipes := g.1, nextId := g.2.1, scored := [], score := 0,
    best := w.best, writes := w.writes,
    running := true, paused := false, gameOver := false, t := w.t,
    prof := prof, dispW := W, dispH := H, ri := g.2.2 }

/-- A run of consecutive frames inside a single session, each frame an
optional flap input followed by the RAF tick. The run aborts with none
if any frame would start outside the running non-terminal state, so a
some result certifies that no frame took flap's restart path and the
whole trace lies between one reset and the next. -/
def runS (rng : ℕ → ℚ) : List Bool → World → Option World
  | [], w => some w
  | b :: bs, w =>
    if w.gameOver || !w.running then none
    else
      match update rng (if b then flap rng w else w) with
      | none => none
      | some w' => runS rng bs w'

/-- Game states reachable from a fresh mount through the app's own
transitions: ticks, flap inputs, pause toggles, restarts, and
viewport-resize / mode-change re-initialization. -/
inductive Reachable (stored : Option ℕ) : World → Prop
  | init (mode : Mode) (W H : ℚ) (rng : ℕ → ℚ) :
      Reachable stored (initWorld mode W H rng stored)
  | step (rng : ℕ → ℚ) {w w' : World} :
      Reachable stored w → update rng w = some w' → Reachable stored w'
  | flapStep (rng : ℕ → ℚ) {w : World} :
      Reachable stored w → Reachable stored (flap rng w)
  | pauseStep {w : World} :
      Reachable stored w → Reachable stored (togglePause w)
  | resetStep (rng : ℕ → ℚ) {w : World} :
      Reachable stored w → Reachable stored (resetFull rng w)
  | reinitStep (mode : Mode) (W H : ℚ) (rng : ℕ → ℚ) {w : World} :
      Reachable stored w → Reachable stored (reinitWorld mode W H rng w)

/-- The constant-zero Math.random() stream used by the concrete runs:
every generated pipe takes the lowest allowed gap-top. -/
def rng0 : ℕ → ℚ := fun _ => 0

/-- The world at a fresh mount with the default 960x480 viewport, normal
mode, no stored best score, and the constant-zero RNG stream. -/
def w0 : World := initWorld Mode.normal 960 480 rng0 none

/-- The state after one tick from the fresh mount. -/
def w0t : World := (update rng0 w0).getD w0

/-- The fresh-mount world with the pause flag set. -/
def wPaused : World := { w0 with paused := true }

/-- The fresh-mount world with the terminal flag set but not paused: the
state reached by pressing the pause key after a game over resumes the
scheduler with gameOver still true. -/
def wTerminal : World := { w0 with gameOver := true }

/-- A world whose queue holds exactly one pipe whose right edge is past
the off-screen threshold: x + pipeWidth = -100 + 58 = -42 < -10. -/
def wSingleton : World := { w0 with pipes := [⟨0, -100, 29⟩] }

/-- A profile with the spec scenario's groundLine of 440 and the normal
960x480 physics. -/
def profC5 : Profile :=
  { gravity := 1 / 2, flap := -9, pipeGap := 134, pipeWidth := 58,
    pipeSpacing := 307, speed := 3, groundY := 440, skyColor := "#87CEEB" }

/-- A mid-flight world about to fall into the ground: after integration
the bird is at y = 432 with radius 16 against groundLine 440. -/
def wC5 : World :=
  { bird := { x := 173, y := 863 / 2, vy := 0, r := 16, wingAngle := 0 },
    pipes := [⟨0, 500, 29⟩], nextId := 1, scored := [], score := 0,
    best := 0, writes := [], running := true, paused := false,
    gameOver := false, t := 0, prof := profC5, dispW := 960, dispH := 480,
    ri := 0 }

/-- Flap-input tick indices of the session that dies on the exact tick
the first pipe's center crosses the bird's x. -/
def flapIdxA : List ℕ :=
  [0, 1, 2, 3, 4, 5, 6, 7, 8, 9, 10, 11, 12, 47, 82, 117, 152, 187, 222,
   257, 292, 293, 295]

/-- Flap-input tick indices of the session that hovers through the first
two pipes and records two best-score writes. -/
def flapIdxB : List ℕ :=
  [0, 1, 2, 3, 4, 5, 6, 7, 8, 9, 10, 11, 12, 47, 82, 117, 152, 187, 222,
   257, 292, 327, 362, 397, 432]

/-- A frame schedule of n frames flapping exactly at the given indices. -/
def schedOf (idx : List ℕ) (n : ℕ) : List Bool :=
  (List.range n).map fun i => idx.contains i

/-- The first 333 frames of run A; the next (334th) tick is the first on
which pipe 0's center (x + 29) is left of the bird's x = 173. -/
def schedApre : List Bool := schedOf flapIdxA 333

/-- 437 frames of run B. -/
def schedB : List Bool := schedOf flapIdxB 437

/-- The state of run A just before the crossing tick, written out in
full (it equals runS rng0 schedApre w0, proved in the counterexample). -/
def wApre : World :=
  { bird := { x := 173, y := 283 / 2, vy := 10, r := 16, wingAngle := 0 },
    pipes := [⟨0, 145, 29⟩, ⟨1, 452, 29⟩, ⟨2, 759, 29⟩, ⟨3, 1066, 29⟩,
              ⟨4, 1373, 29⟩, ⟨5, 1680, 29⟩],
    nextId := 6, scored := [], score := 0, best := 0, writes := [],
    running := true, paused := false, gameOver := false, t := 333,
    prof := computeProfile Mode.normal 960 480, dispW := 960, dispH := 480,
    ri := 6 }

/-- Scoring-state well-formedness: every pipe identity and every credited
identity is below the allocation counter, and the queued identities are
distinct. Object identities in the source are JS object references; here
they are allocated from nextId, so WF says no identity is ever reused. -/
def WF (w : World) : Prop :=
  (∀ p ∈ w.pipes, p.id < w.nextId) ∧ (∀ i ∈ w.scored, i < w.nextId)
  ∧ (w.pipes.map Pipe.id).Nodup

/-- The accumulator state of the collision/score loop as update runs it
on a post-recycle queue ps. -/
def tickAcc (w : World) (ps : List Pipe) : Acc :=
  scoreLoop w.prof (clampCeil (integrateBird w.prof w.bird)) ps
    ⟨w.score, w.best, w.writes, w.scored, false⟩

/-- The record of constants named by the spec scaling law. -/
structure SpecProfile where
  gravity : ℚ
  flapImpulse : ℚ
  gapHeight : ℚ
  obstacleWidth : ℚ
  spacing : ℚ
  scrollSpeed : ℚ
  groundLine : ℚ
deriving DecidableEq

/-- Modelled from the spec: the scaling law exactly as section 4.1 states
it, with s = viewportHeight / 480 and no rounding anywhere:
gravity = 0.5*s, flapImpulse = -9*s,
gapHeight = max(120*s, 0.28*H) * gapFactor,
obstacleWidth = max(54, 0.06*W), spacing = max(260, 0.32*W),
scrollSpeed = modeFactor*s, groundLine = H - max(36, 0.08*H). -/
def specScalingLaw (mode : Mode) (W H : ℚ) : SpecProfile :=
  let s : ℚ := H / 480
  { gravity := 1 / 2 * s
    flapImpulse := -9 * s
    gapHeight := max (120 * s) (28 / 100 * H) * gapFactor mode
    obstacleWidth := max 54 (6 / 100 * W)
    spacing := max 260 (32 / 100 * W)
    scrollSpeed := speedFactor mode * s
    groundLine := H - max 36 (8 / 100 * H) }

/-! Theorems. -/

set_option maxRecDepth 100000
set_option maxHeartbeats 8000000

/-- The value randRange r a b lies in [a, b] for any Math.random() outcome
r in [0, 1) whenever a ≤ b. -/
theorem randRange_bounds (r : ℚ) (a b : ℤ) (h0 : 0 ≤ r) (h1 : r < 1)
    (hab : a ≤ b) : a ≤ randRange r a b ∧ randRange r a b ≤ b := by
  have hc : (0 : ℚ) < ((b - a + 1 : ℤ) : ℚ) := by
    have h : (0 : ℤ) < b - a + 1 := by omega
    exact_mod_cast h
  constructor
  · have h := Int.floor_nonneg.mpr (mul_nonneg h0 hc.le)
    unfold randRange
    omega
  · have h : ⌊r * ((b - a + 1 : ℤ) : ℚ)⌋ < b - a + 1 := by
      apply Int.floor_lt.mpr
      calc r * ((b - a + 1 : ℤ) : ℚ) < 1 * ((b - a + 1 : ℤ) : ℚ) :=
            mul_lt_mul_of_pos_right h1 hc
        _ = ((b - a + 1 : ℤ) : ℚ) := one_mul _
    unfold randRange
    omega

/-- C1 (amended): when the margin fits, i.e. whenever
marginTop ≤ groundLine - marginBottom - gapHeight, every pipe the factory
produces satisfies gapTop ≥ marginTop and
gapTop + gapHeight ≤ groundLine - marginBottom, for every profile, every
nonnegative viewport height and every RNG outcome in [0, 1). In
degenerate viewports where the clamp collapses the range the margins can
be violated (see the counterexample). -/
theorem makePipeAtX_margins (prof : Profile) (H : ℚ) (rng : ℕ → ℚ) (x : ℚ)
    (nid ri : ℕ) (hH : 0 ≤ H) (hr0 : 0 ≤ rng ri) (hr1 : rng ri < 1)
    (hfit : jround (6 / 100 * H) ≤ prof.groundY - jround (6 / 100 * H) - prof.pipeGap) :
    jround (6 / 100 * H) ≤ (makePipeAtX prof H rng x nid ri).1.topH
    ∧ (makePipeAtX prof H rng x nid ri).1.topH + prof.pipeGap
        ≤ prof.groundY - jround (6 / 100 * H) := by
  have hm : 0 ≤ jround (6 / 100 * H) := by
    unfold jround
    apply Int.floor_nonneg.mpr
    have h : 0 ≤ 6 / 100 * H := by positivity
    linarith
  have hmin : max 0 (min (jround (6 / 100 * H))
      (prof.groundY - jround (6 / 100 * H) - prof.pipeGap)) = jround (6 / 100 * H) := by
    rw [min_eq_left hfit, max_eq_right hm]
  have hmax : max (jround (6 / 100 * H))
      (prof.groundY - jround (6 / 100 * H) - prof.pipeGap)
      = prof.groundY - jround (6 / 100 * H) - prof.pipeGap :=
    max_eq_right hfit
  have hb := randRange_bounds (rng ri) (jround (6 / 100 * H))
    (prof.groundY - jround (6 / 100 * H) - prof.pipeGap) hr0 hr1 hfit
  have htop : (makePipeAtX prof H rng x nid ri).1.topH
      = randRange (rng ri) (jround (6 / 100 * H))
          (prof.groundY - jround (6 / 100 * H) - prof.pipeGap) := by
    simp only [makePipeAtX]
    rw [hmin, hmax]
  rw [htop]
  exact ⟨hb.1, by omega⟩

/-- C1 witness: the default normal 960x480 profile at its own viewport
height fits the margins, and the produced pipe respects them. -/
theorem makePipeAtX_margins_witness :
    jround (6 / 100 * (480 : ℚ))
      ≤ (makePipeAtX (computeProfile Mode.normal 960 480) 480 rng0 1144 0 0).1.topH
    ∧ (makePipeAtX (computeProfile Mode.normal 960 480) 480 rng0 1144 0 0).1.topH
        + (computeProfile Mode.normal 960 480).pipeGap
        ≤ (computeProfile Mode.normal 960 480).groundY - jround (6 / 100 * (480 : ℚ)) :=
  makePipeAtX_margins (computeProfile Mode.normal 960 480) 480 rng0 1144 0 0
    (by norm_num) (by with_unfolding_all decide) (by with_unfolding_all decide)
    (by with_unfolding_all decide)

/-- C1 counterexample: at the degenerate viewport 20x10 (normal mode),
the clamp collapses the range to the single value 0, which violates
gapTop ≥ marginTop = 1 - so the claim's margin guarantee does not hold
for every viewport size. -/
theorem makePipeAtX_degenerate_cx :
    ¬ jround (6 / 100 * (10 : ℚ))
        ≤ (makePipeAtX (computeProfile Mode.normal 20 10) 10 rng0 100 0 0).1.topH := by
  with_unfolding_all decide

/-- C2: a queue holding exactly one pipe whose right edge is past the
off-screen threshold makes the tick fail: the recycle loop shifts the
only pipe and then reads pipes[pipes.length - 1].x on the empty array,
an uncaught TypeError, modelled as none. -/
theorem update_singleton_offscreen_crash : update rng0 wSingleton = none := by
  with_unfolding_all decide

/-- C4 (amended): the tick is a no-op exactly under the guard the code
actually checks - running false or paused true; the terminal flag on its
own does not guard the tick. -/
theorem update_noop_guard (rng : ℕ → ℚ) (w : World)
    (h : w.running = false ∨ w.paused = true) : update rng w = some w := by
  rcases h with h | h <;> simp [update, h]

/-- C4 witness: a paused world ticks to itself. -/
theorem update_noop_guard_witness : update rng0 wPaused = some wPaused :=
  update_noop_guard rng0 wPaused (Or.inr rfl)

/-- C4 counterexample: a running, unpaused world with the terminal flag
set is changed by the tick (gravity still integrates the velocity), so a
tick invoked with terminal=true is not a no-op regardless of the paused
flag. -/
theorem update_runs_when_terminal_unpaused :
    wTerminal.gameOver = true ∧ wTerminal.running = true ∧ wTerminal.paused = false
    ∧ wTerminal.bird.vy = 0
    ∧ (update rng0 wTerminal).map (fun w => w.bird.vy) = some (1 / 2) := by
  with_unfolding_all decide

/-- C6 (amended): the computed profile equals the spec scaling law with
Math.round inserted exactly where the code rounds: the gap height (both
the 0.28*H term and the final product), the obstacle width, the spacing
and the ground line are integer-rounded; gravity, flap impulse and
scroll speed are exact. -/
theorem computeProfile_rounded_law (m : Mode) (W H : ℚ) :
    (computeProfile m W H).gravity = 1 / 2 * (H / 480)
    ∧ (computeProfile m W H).flap = -9 * (H / 480)
    ∧ (computeProfile m W H).pipeGap
        = jround (max (120 * (H / 480)) ((jround (28 / 100 * H) : ℤ) : ℚ) * gapFactor m)
    ∧ (computeProfile m W H).pipeWidth = max 54 (jround (6 / 100 * W))
    ∧ (computeProfile m W H).pipeSpacing = max 260 (jround (32 / 100 * W))
    ∧ (computeProfile m W H).speed = speedFactor m * (H / 480)
    ∧ (computeProfile m W H).groundY = jround (H - max 36 (8 / 100 * H)) := by
  refine ⟨rfl, rfl, ?_, ?_, ?_, rfl, rfl⟩ <;> simp [computeProfile, mul_comm]

/-- C6 counterexample: already at the design-baseline viewport 960x480 in
normal mode the computed profile differs from the unrounded spec law:
the code's obstacle width is 58, the law's is 57.6; the code's gap
height is 134, the law's is 134.4. -/
theorem computeProfile_ne_specScalingLaw :
    ((computeProfile Mode.normal 960 480).pipeWidth : ℚ)
        ≠ (specScalingLaw Mode.normal 960 480).obstacleWidth
    ∧ ((computeProfile Mode.normal 960 480).pipeGap : ℚ)
        ≠ (specScalingLaw Mode.normal 960 480).gapHeight := by
  with_unfolding_all decide

/-- C7: at viewport 960x480 in normal mode (gravity 0.5, flap impulse
-9), from the start state y = 240, vy = 0, one tick with no flap gives
vy = 0.5 and y = 240.5 (velocity integrated before position), and a flap
followed by one tick gives vy = -8.5 and y = 231.5. -/
theorem tick_scenario_960x480 :
    w0.bird.y = 240 ∧ w0.bird.vy = 0
    ∧ w0.prof.gravity = 1 / 2 ∧ w0.prof.flap = -9
    ∧ (update rng0 w0).map (fun w => (w.bird.vy, w.bird.y)) = some (1 / 2, 481 / 2)
    ∧ (flap rng0 w0).bird.vy = -9
    ∧ (update rng0 (flap rng0 w0)).map (fun w => (w.bird.vy, w.bird.y))
        = some (-17 / 2, 463 / 2) := by
  with_unfolding_all decide

/-- C9: when the session is running, unpaused and not terminal, flap sets
vy to exactly the profile's flap impulse (an assignment), and flapping
twice before the next tick yields the same WorldState as flapping
once. -/
theorem flap_sets_vy_idempotent (rng : ℕ → ℚ) (w : World)
    (h1 : w.running = true) (h2 : w.paused = false) (h3 : w.gameOver = false) :
    (flap rng w).bird.vy = w.prof.flap ∧ flap rng (flap rng w) = flap rng w := by
  simp [flap, h1, h2, h3]

/-- C9 witness: the fresh-mount world. -/
theorem flap_sets_vy_idempotent_witness :
    (flap rng0 w0).bird.vy = w0.prof.flap ∧ flap rng0 (flap rng0 w0) = flap rng0 w0 :=
  flap_sets_vy_idempotent rng0 w0 rfl rfl rfl

/-- C10: a flap received while running, paused and not terminal leaves
the WorldState entirely unchanged and fires no flap sound. -/
theorem flap_while_paused_noop (rng : ℕ → ℚ) (w : World)
    (h1 : w.running = true) (h2 : w.paused = true) (h3 : w.gameOver = false) :
    flap rng w = w ∧ flapSound w = false := by
  simp [flap, flapSound, h1, h2, h3]

/-- C10 witness: the paused fresh-mount world. -/
theorem flap_while_paused_noop_witness :
    flap rng0 wPaused = wPaused ∧ flapSound wPaused = false :=
  flap_while_paused_noop rng0 wPaused rfl rfl rfl

/-- C5: when a running, unpaused, non-terminal tick's post-integration
position satisfies y + radius > groundLine, the tick clamps y to
groundLine - radius, sets the terminal flag, pauses, and ends early: the
score, the scored set and the tick counter are untouched (step 5 and
step 6 are skipped). -/
theorem update_ground_clamp (rng : ℕ → ℚ) (w : World) (ps : List Pipe)
    (nid ri : ℕ)
    (h1 : w.running = true) (h2 : w.paused = false) (h3 : w.gameOver = false)
    (hrec : recycleRefill w.dispW w.dispH w.prof rng (movePipes w.prof w.pipes)
        w.nextId w.ri = some (ps, nid, ri))
    (hg : (integrateBird w.prof w.bird).y + (integrateBird w.prof w.bird).r
        > (w.prof.groundY : ℚ)) :
    update rng w = some { w with
      bird := { integrateBird w.prof w.bird with
                y := (w.prof.groundY : ℚ) - (integrateBird w.prof w.bird).r },
      pipes := ps, nextId := nid, ri := ri, gameOver := true, paused := true } := by
  unfold update
  rw [h1, h2]
  simp only [Bool.not_true, Bool.false_or, Bool.false_eq_true, if_false, hrec]
  rw [if_pos hg]
  simp [endGame, h3]

/-- C5 witness: the spec's scenario numbers - post-integration y = 432,
radius 16, groundLine 440 - yield y = 424 and terminal. -/
theorem update_ground_clamp_witness :
    update rng0 wC5 = some { wC5 with
      bird := { integrateBird wC5.prof wC5.bird with
                y := (wC5.prof.groundY : ℚ) - (integrateBird wC5.prof wC5.bird).r },
      pipes := [⟨0, 497, 29⟩], nextId := 1, ri := 0,
      gameOver := true, paused := true } :=
  update_ground_clamp rng0 wC5 [⟨0, 497, 29⟩] 1 0 rfl rfl rfl
    (by with_unfolding_all decide) (by with_unfolding_all decide)

/-- The initial-pipe loop allocates exactly n fresh distinct identities
starting at nid. -/
theorem genPipesAux_spec (prof : Profile) (H : ℚ) (rng : ℕ → ℚ) :
    ∀ (n : ℕ) (x : ℚ) (nid ri : ℕ),
      (genPipesAux prof H rng n x nid ri).2.1 = nid + n
      ∧ (∀ p ∈ (genPipesAux prof H rng n x nid ri).1, nid ≤ p.id ∧ p.id < nid + n)
      ∧ ((genPipesAux prof H rng n x nid ri).1.map Pipe.id).Nodup := by
  intro n
  induction n with
  | zero => intro x nid ri; simp [genPipesAux]
  | succ n ih =>
    intro x nid ri
    obtain ⟨h1, h2, h3⟩ := ih (x + (prof.pipeSpacing : ℚ)) (nid + 1) (ri + 1)
    have e : genPipesAux prof H rng (n + 1) x nid ri
        = ((makePipeAtX prof H rng x nid ri).1 ::
            (genPipesAux prof H rng n (x + (prof.pipeSpacing : ℚ)) (nid + 1) (ri + 1)).1,
           (genPipesAux prof H rng n (x + (prof.pipeSpacing : ℚ)) (nid + 1) (ri + 1)).2.1,
           (genPipesAux prof H rng n (x + (prof.pipeSpacing : ℚ)) (nid + 1) (ri + 1)).2.2) :=
      rfl
    rw [e]
    have hid : (makePipeAtX prof H rng x nid ri).1.id = nid := rfl
    refine ⟨?_, ?_, ?_⟩
    · show (genPipesAux prof H rng n (x + (prof.pipeSpacing : ℚ))
        (nid + 1) (ri + 1)).2.1 = nid + (n + 1)
      rw [h1]
      omega
    · intro p hp
      rcases List.mem_cons.mp hp with hp | hp
      · rw [hp, hid]
        omega
      · have := h2 p hp
        omega
    · have hid : (makePipeAtX prof H rng x nid ri).1.id = nid := rfl
      simp only [List.map_cons, List.nodup_cons, hid]
      refine ⟨?_, h3⟩
      intro hmem
      rcases List.mem_map.mp hmem with ⟨q, hq, hqid⟩
      have := h2 q hq
      omega

/-- generateInitialPipes seeds six pipes with fresh distinct
identities. -/
theorem generateInitialPipes_spec (W H : ℚ) (prof : Profile) (rng : ℕ → ℚ)
    (nid ri : ℕ) :
    (generateInitialPipes W H prof rng nid ri).2.1 = nid + 6
    ∧ (∀ p ∈ (generateInitialPipes W H prof rng nid ri).1,
        nid ≤ p.id ∧ p.id < nid + 6)
    ∧ ((generateInitialPipes W H prof rng nid ri).1.map Pipe.id).Nodup :=
  genPipesAux_spec prof H rng 6 _ nid ri

/-- The recycle loop only keeps existing pipes or appends pipes with
fresh identities, preserves the identity bound and keeps the queued
identities distinct. -/
theorem recycleLoop_spec (prof : Profile) (H : ℚ) (rng : ℕ → ℚ) :
    ∀ (fuel : ℕ) (ps : List Pipe) (nid ri : ℕ) (qs : List Pipe) (nid2 ri2 : ℕ),
      recycleLoop prof H rng fuel ps nid ri = some (qs, nid2, ri2) →
      nid ≤ nid2
      ∧ (∀ p ∈ qs, p ∈ ps ∨ (nid ≤ p.id ∧ p.id < nid2))
      ∧ ((∀ p ∈ ps, p.id < nid) → (ps.map Pipe.id).Nodup →
          (∀ p ∈ qs, p.id < nid2) ∧ (qs.map Pipe.id).Nodup) := by
  intro fuel
  induction fuel with
  | zero => intro ps nid ri qs nid2 ri2 h; simp [recycleLoop] at h
  | succ fuel ih =>
    intro ps nid ri qs nid2 ri2 h
    match ps with
    | [] =>
      simp only [recycleLoop, Option.some.injEq, Prod.mk.injEq] at h
      obtain ⟨rfl, rfl, rfl⟩ := h
      exact ⟨le_refl _, by simp, fun hb hn => ⟨by simp, by simp⟩⟩
    | p :: rest =>
      rw [recycleLoop] at h
      by_cases hc : p.x + (prof.pipeWidth : ℚ) < -10
      · rw [if_pos hc] at h
        cases hl : rest.getLast? with
        | none => rw [hl] at h; simp at h
        | some lastP =>
          rw [hl] at h
          simp only at h
          obtain ⟨ha, hb, hrest⟩ := ih
            (rest ++ [(makePipeAtX prof H rng
              (lastP.x + (prof.pipeSpacing : ℚ)) nid ri).1])
            (nid + 1) (ri + 1) qs nid2 ri2 h
          have hnewid : (makePipeAtX prof H rng
              (lastP.x + (prof.pipeSpacing : ℚ)) nid ri).1.id = nid := rfl
          refine ⟨by omega, ?_, ?_⟩
          · intro q hq
            rcases hb q hq with hmem | hfresh
            · rcases List.mem_append.mp hmem with h1 | h2
              · exact Or.inl (List.mem_cons_of_mem _ h1)
              · right
                have hq2 : q = (makePipeAtX prof H rng
                    (lastP.x + (prof.pipeSpacing : ℚ)) nid ri).1 := by
                  simpa using h2
                rw [hq2, hnewid]
                omega
            · right; omega
          · intro hbound hnodup
            apply hrest
            · intro q hq
              rcases List.mem_append.mp hq with h1 | h2
              · have := hbound q (List.mem_cons_of_mem _ h1)
                omega
              · have hq2 : q = (makePipeAtX prof H rng
                    (lastP.x + (prof.pipeSpacing : ℚ)) nid ri).1 := by
                  simpa using h2
                rw [hq2, hnewid]
                omega
            · rw [List.map_append, List.nodup_append]
              have htl : (rest.map Pipe.id).Nodup := by
                have := hnodup
                simp only [List.map_cons, List.nodup_cons] at this
                exact this.2
              refine ⟨htl, by simp, ?_⟩
              intro a hamem
              rcases List.mem_map.mp hamem with ⟨q, hq, hqid⟩
              have hqlt := hbound q (List.mem_cons_of_mem _ hq)
              simp only [List.map_cons, List.map_nil, List.mem_cons,
                List.not_mem_nil, or_false]
              omega
      · rw [if_neg hc] at h
        simp only [Option.some.injEq, Prod.mk.injEq] at h
        obtain ⟨rfl, rfl, rfl⟩ := h
        exact ⟨le_refl _, fun q hq => Or.inl hq,
          fun hb hn => ⟨fun q hq => hb q hq, hn⟩⟩

/-- recycleRefill has the same identity discipline as the recycle loop,
with the empty-queue refill allocating six fresh identities. -/
theorem recycleRefill_spec (W H : ℚ) (prof : Profile) (rng : ℕ → ℚ)
    (ps : List Pipe) (nid ri : ℕ) (qs : List Pipe) (nid2 ri2 : ℕ)
    (h : recycleRefill W H prof rng ps nid ri = some (qs, nid2, ri2)) :
    nid ≤ nid2
    ∧ (∀ p ∈ qs, p ∈ ps ∨ (nid ≤ p.id ∧ p.id < nid2))
    ∧ ((∀ p ∈ ps, p.id < nid) → (ps.map Pipe.id).Nodup →
        (∀ p ∈ qs, p.id < nid2) ∧ (qs.map Pipe.id).Nodup) := by
  unfold recycleRefill at h
  cases hrc : recycleLoop prof H rng (ps.length + 1000) ps nid ri with
  | none => rw [hrc] at h; simp at h
  | some g =>
    rw [hrc] at h
    obtain ⟨g1, g2, g3⟩ := g
    dsimp only at h
    obtain ⟨ha, hb, hrest⟩ := recycleLoop_spec prof H rng _ ps nid ri g1 g2 g3 hrc
    by_cases he : g1.isEmpty
    · rw [if_pos he] at h
      obtain ⟨hg1, hg2, hg3⟩ := generateInitialPipes_spec W H prof rng g2 g3
      rw [show generateInitialPipes W H prof rng g2 g3
          = ((generateInitialPipes W H prof rng g2 g3).1,
             (generateInitialPipes W H prof rng g2 g3).2.1,
             (generateInitialPipes W H prof rng g2 g3).2.2) from rfl] at h
      simp only [Option.some.injEq, Prod.mk.injEq] at h
      obtain ⟨rfl, hn2, _⟩ := h
      refine ⟨by omega, ?_, ?_⟩
      · intro p hp
        have := hg2 p hp
        right
        omega
      · intro _ _
        refine ⟨?_, hg3⟩
        intro p hp
        have := hg2 p hp
        omega
    · rw [if_neg he] at h
      simp only [Option.some.injEq, Prod.mk.injEq] at h
      obtain ⟨rfl, rfl, rfl⟩ := h
      exact ⟨ha, hb, hrest⟩

/-- The scoring loop's complete characterization: it appends a list of
newly credited identities to the scored set and bumps the score by
exactly their number; every newly credited identity was uncredited and
belongs to a queued pipe whose center passed the bird; when the loop
finishes without a collision every passed pipe ends up credited; the
best score only grows; and a strictly increasing write log bounded by
the best score stays so. -/
theorem scoreLoop_spec (prof : Profile) (b : Bird) :
    ∀ (ps : List Pipe) (acc : Acc), ∃ new : List ℕ,
      (scoreLoop prof b ps acc).scored = new ++ acc.scored
      ∧ (scoreLoop prof b ps acc).score = acc.score + new.length
      ∧ new.Nodup
      ∧ (∀ i ∈ new, i ∉ acc.scored
          ∧ ∃ p, p ∈ ps ∧ p.id = i ∧ p.x + (prof.pipeWidth : ℚ) / 2 < b.x)
      ∧ ((scoreLoop prof b ps acc).died = false →
          ∀ p ∈ ps, p.x + (prof.pipeWidth : ℚ) / 2 < b.x →
            p.id ∈ (scoreLoop prof b ps acc).scored)
      ∧ acc.best ≤ (scoreLoop prof b ps acc).best
      ∧ (List.Pairwise (· < ·) acc.writes → (∀ v ∈ acc.writes, v ≤ acc.best) →
          List.Pairwise (· < ·) (scoreLoop prof b ps acc).writes
          ∧ ∀ v ∈ (scoreLoop prof b ps acc).writes,
              v ≤ (scoreLoop prof b ps acc).best) := by
  intro ps
  induction ps with
  | nil =>
    intro acc
    exact ⟨[], by simp [scoreLoop], by simp [scoreLoop], by simp,
      by simp, by simp [scoreLoop], by simp [scoreLoop],
      fun h1 h2 => by simpa [scoreLoop] using ⟨h1, h2⟩⟩
  | cons p rest ih =>
    intro acc
    by_cases hcol : (b.x + b.r > p.x ∧ b.x - b.r < p.x + (prof.pipeWidth : ℚ))
        ∧ (b.y - b.r < (p.topH : ℚ) ∨ b.y + b.r > ((p.topH + prof.pipeGap : ℤ) : ℚ))
    · have e : scoreLoop prof b (p :: rest) acc = { acc with died := true } := by
        rw [scoreLoop, if_pos hcol]
      refine ⟨[], by rw [e]; simp, by rw [e]; simp, by simp, by simp, ?_,
        by rw [e], fun h1 h2 => by rw [e]; exact ⟨h1, h2⟩⟩
      rw [e]
      intro hdied
      simp at hdied
    · by_cases hcr : p.x + (prof.pipeWidth : ℚ) / 2 < b.x ∧ p.id ∉ acc.scored
      · by_cases hbest : acc.score + 1 > acc.best
        · have e : scoreLoop prof b (p :: rest) acc
              = scoreLoop prof b rest
                { score := acc.score + 1, best := acc.score + 1,
                  writes := acc.writes ++ [acc.score + 1],
                  scored := p.id :: acc.scored, died := acc.died } := by
            rw [scoreLoop, if_neg hcol]
            simp only [if_pos hcr, if_pos hbest]
          obtain ⟨new2, e1, e2, e3, e4, e5, e6, e7⟩ := ih
            { score := acc.score + 1, best := acc.score + 1,
              writes := acc.writes ++ [acc.score + 1],
              scored := p.id :: acc.scored, died := acc.died }
          refine ⟨new2 ++ [p.id], ?_, ?_, ?_, ?_, ?_, ?_, ?_⟩
          · rw [e, e1]
            simp
          · rw [e, e2]
            show acc.score + 1 + new2.length = acc.score + (new2 ++ [p.id]).length
            rw [List.length_append, List.length_singleton]
            omega
          · rw [List.nodup_append]
            refine ⟨e3, by simp, ?_⟩
            intro a ha2
            have := (e4 a ha2).1
            simp only [List.mem_cons, not_or] at this
            simp only [List.mem_singleton]
            exact this.1
          · intro i hi
            rcases List.mem_append.mp hi with hi | hi
            · obtain ⟨hnot, q, hq, hqid, hqx⟩ := e4 i hi
              simp only [List.mem_cons, not_or] at hnot
              exact ⟨hnot.2, q, List.mem_cons_of_mem _ hq, hqid, hqx⟩
            · have hi2 : i = p.id := by simpa using hi
              exact ⟨hi2 ▸ hcr.2, p, List.mem_cons_self _ _, hi2.symm, hcr.1⟩
          · rw [e]
            intro hdied q hq hqx
            rcases List.mem_cons.mp hq with hq | hq
            · rw [e1, hq]
              apply List.mem_append_right
              exact List.mem_cons_self _ _
            · exact e5 hdied q hq hqx
          · rw [e]
            refine le_trans ?_ e6
            show acc.best ≤ acc.score + 1
            omega
          · intro hw1 hw2
            rw [e]
            apply e7
            · show List.Pairwise (· < ·) (acc.writes ++ [acc.score + 1])
              rw [List.pairwise_append]
              refine ⟨hw1, by simp, ?_⟩
              intro a ha2 c hc2
              have := hw2 a ha2
              simp only [List.mem_singleton] at hc2
              omega
            · show ∀ v ∈ acc.writes ++ [acc.score + 1], v ≤ acc.score + 1
              intro v hv
              rcases List.mem_append.mp hv with hv | hv
              · have := hw2 v hv
                omega
              · simp only [List.mem_singleton] at hv
                omega
        · have e : scoreLoop prof b (p :: rest) acc
              = scoreLoop prof b rest
                { acc with score := acc.score + 1,
                           scored := p.id :: acc.scored } := by
            rw [scoreLoop, if_neg hcol]
            simp only [if_pos hcr, if_neg hbest]
          obtain ⟨new2, e1, e2, e3, e4, e5, e6, e7⟩ := ih
            { acc with score := acc.score + 1, scored := p.id :: acc.scored }
          refine ⟨new2 ++ [p.id], ?_, ?_, ?_, ?_, ?_, ?_, ?_⟩
          · rw [e, e1]
            simp
          · rw [e, e2]
            show acc.score + 1 + new2.length = acc.score + (new2 ++ [p.id]).length
            rw [List.length_append, List.length_singleton]
            omega
          · rw [List.nodup_append]
            refine ⟨e3, by simp, ?_⟩
            intro a ha2
            have := (e4 a ha2).1
            simp only [List.mem_cons, not_or] at this
            simp only [List.mem_singleton]
            exact this.1
          · intro i hi
            rcases List.mem_append.mp hi with hi | hi
            · obtain ⟨hnot, q, hq, hqid, hqx⟩ := e4 i hi
              simp only [List.mem_cons, not_or] at hnot
              exact ⟨hnot.2, q, List.mem_cons_of_mem _ hq, hqid, hqx⟩
            · have hi2 : i = p.id := by simpa using hi
              exact ⟨hi2 ▸ hcr.2, p, List.mem_cons_self _ _, hi2.symm, hcr.1⟩
          · rw [e]
            intro hdied q hq hqx
            rcases List.mem_cons.mp hq with hq | hq
            · rw [e1, hq]
              apply List.mem_append_right
              exact List.mem_cons_self _ _
            · exact e5 hdied q hq hqx
          · rw [e]
            exact e6
          · intro hw1 hw2
            rw [e]
            exact e7 hw1 hw2
      · have e : scoreLoop prof b (p :: rest) acc = scoreLoop prof b rest acc := by
          rw [scoreLoop, if_neg hcol]
          simp only [if_neg hcr]
        obtain ⟨new2, e1, e2, e3, e4, e5, e6, e7⟩ := ih acc
        refine ⟨new2, by rw [e]; exact e1, by rw [e]; exact e2, e3, ?_, ?_,
          by rw [e]; exact e6, fun h1 h2 => by rw [e]; exact e7 h1 h2⟩
        · intro i hi
          obtain ⟨hnot, q, hq, hqid, hqx⟩ := e4 i hi
          exact ⟨hnot, q, List.mem_cons_of_mem _ hq, hqid, hqx⟩
        · rw [e]
          intro hdied q hq hqx
          rcases List.mem_cons.mp hq with hq | hq
          · have hpid : p.id ∈ acc.scored := by
              by_contra hno
              exact hcr ⟨hq ▸ hqx, hno⟩
            rw [e1, hq]
            exact List.mem_append_right _ hpid
          · exact e5 hdied q hq hqx

/-- endGame only touches the gameOver and paused flags. -/
theorem endGame_proj (w : World) :
    (endGame w).pipes = w.pipes ∧ (endGame w).nextId = w.nextId
    ∧ (endGame w).scored = w.scored ∧ (endGame w).score = w.score
    ∧ (endGame w).best = w.best ∧ (endGame w).writes = w.writes
    ∧ (endGame w).bird = w.bird ∧ (endGame w).t = w.t
    ∧ (endGame w).prof = w.prof ∧ (endGame w).running = w.running := by
  unfold endGame
  split <;> simp

/-- The ceiling clamp keeps the bird's horizontal position and radius. -/
theorem clampCeil_x (b : Bird) : (clampCeil b).x = b.x ∧ (clampCeil b).r = b.r := by
  unfold clampCeil
  split <;> simp

/-- Scrolling does not change pipe identities. -/
theorem movePipes_ids (prof : Profile) (ps : List Pipe) :
    (movePipes prof ps).map Pipe.id = ps.map Pipe.id := by
  unfold movePipes
  rw [List.map_map]
  rfl

/-- Every result of a tick is one of: the guard no-op, the
ground-collision early exit, or a run of the collision/score loop that
ends with or without a collision. -/
theorem update_cases (rng : ℕ → ℚ) (w w' : World) (h : update rng w = some w') :
    ((w.running = false ∨ w.paused = true) ∧ w' = w)
    ∨ (w.running = true ∧ w.paused = false ∧
        ∃ ps nid ri, recycleRefill w.dispW w.dispH w.prof rng
            (movePipes w.prof w.pipes) w.nextId w.ri = some (ps, nid, ri)
        ∧ (((integrateBird w.prof w.bird).y + (integrateBird w.prof w.bird).r
                > (w.prof.groundY : ℚ)
            ∧ w' = endGame { w with
                bird := { integrateBird w.prof w.bird with
                  y := (w.prof.groundY : ℚ) - (integrateBird w.prof w.bird).r },
                pipes := ps, nextId := nid, ri := ri })
          ∨ (¬((integrateBird w.prof w.bird).y + (integrateBird w.prof w.bird).r
                > (w.prof.groundY : ℚ))
            ∧ (((tickAcc w ps).died = true
                ∧ w' = endGame { w with
                    bird := clampCeil (integrateBird w.prof w.bird),
                    pipes := ps, nextId := nid, ri := ri,
                    score := (tickAcc w ps).score, best := (tickAcc w ps).best,
                    writes := (tickAcc w ps).writes,
                    scored := (tickAcc w ps).scored })
              ∨ ((tickAcc w ps).died = false
                ∧ w' = { w with
                    bird := clampCeil (integrateBird w.prof w.bird),
                    pipes := ps, nextId := nid, ri := ri,
                    score := (tickAcc w ps).score, best := (tickAcc w ps).best,
                    writes := (tickAcc w ps).writes,
                    scored := (tickAcc w ps).scored,
                    t := w.t + 1 }))))) := by
  cases hrun : w.running with
  | false =>
    left
    unfold update at h
    rw [hrun] at h
    simp at h
    exact ⟨Or.inl rfl, h.symm⟩
  | true =>
    cases hpau : w.paused with
    | true =>
      left
      unfold update at h
      rw [hrun, hpau] at h
      simp at h
      exact ⟨Or.inr rfl, h.symm⟩
    | false =>
      right
      refine ⟨rfl, rfl, ?_⟩
      unfold update at h
      rw [hrun, hpau] at h
      simp only [Bool.not_true, Bool.false_or, Bool.false_eq_true, if_false] at h
      cases hrr : recycleRefill w.dispW w.dispH w.prof rng
          (movePipes w.prof w.pipes) w.nextId w.ri with
      | none => rw [hrr] at h; simp at h
      | some g =>
        obtain ⟨ps, nid, ri⟩ := g
        rw [hrr] at h
        dsimp only at h
        refine ⟨ps, nid, ri, rfl, ?_⟩
        by_cases hgr : (integrateBird w.prof w.bird).y
            + (integrateBird w.prof w.bird).r > (w.prof.groundY : ℚ)
        · rw [if_pos hgr] at h
          simp only [Option.some.injEq] at h
          exact Or.inl ⟨hgr, h.symm⟩
        · rw [if_neg hgr] at h
          right
          refine ⟨hgr, ?_⟩
          cases hdied : (tickAcc w ps).died with
          | true =>
            rw [show ((scoreLoop w.prof (clampCeil (integrateBird w.prof w.bird)) ps
                ⟨w.score, w.best, w.writes, w.scored, false⟩).died) = (tickAcc w ps).died
                from rfl, hdied] at h
            simp only [if_true, Option.some.injEq] at h
            exact Or.inl ⟨rfl, h.symm⟩
          | false =>
            rw [show ((scoreLoop w.prof (clampCeil (integrateBird w.prof w.bird)) ps
                ⟨w.score, w.best, w.writes, w.scored, false⟩).died) = (tickAcc w ps).died
                from rfl, hdied] at h
            simp only [Bool.false_eq_true, if_false, Option.some.injEq] at h
            exact Or.inr ⟨rfl, h.symm⟩

/-- After endGame the terminal flag is always set. -/
theorem endGame_terminal (w : World) : (endGame w).gameOver = true := by
  unfold endGame
  split
  · assumption
  · rfl

/-- Filtering a list by non-membership in itself gives nothing. -/
theorem filter_self_nil (l : List ℕ) :
    (l.filter fun i => decide (i ∉ l)) = [] := by
  apply List.filter_eq_nil_iff.mpr
  intro a ha
  simp [ha]

/-- Filtering an append by non-membership in the second part keeps
exactly the fresh first part. -/
theorem filter_fresh_append (new l : List ℕ) (h : ∀ a ∈ new, a ∉ l) :
    ((new ++ l).filter fun i => decide (i ∉ l)) = new := by
  have h1 : (new.filter fun i => decide (i ∉ l)) = new :=
    List.filter_eq_self.mpr fun a ha => decide_eq_true (h a ha)
  rw [List.filter_append, filter_self_nil, h1, List.append_nil]

/-- resetGame always yields a well-formed scoring state: the six re-seeded
pipes take fresh distinct identities and the credit set is cleared. -/
theorem resetGame_WF (rng : ℕ → ℚ) (w : World) : WF (resetGame rng w) := by
  obtain ⟨hg1, hg2, hg3⟩ :=
    generateInitialPipes_spec w.dispW w.dispH w.prof rng w.nextId w.ri
  refine ⟨?_, ?_, ?_⟩
  · intro p hp
    show p.id < (generateInitialPipes w.dispW w.dispH w.prof rng w.nextId w.ri).2.1
    have := hg2 p hp
    omega
  · intro i hi
    have hi2 : i ∈ ([] : List ℕ) := hi
    simp at hi2
  · exact hg3

/-- The mount effect yields a well-formed scoring state. -/
theorem initWorld_WF (mode : Mode) (W H : ℚ) (rng : ℕ → ℚ) (stored : Option ℕ) :
    WF (initWorld mode W H rng stored) := by
  obtain ⟨hg1, hg2, hg3⟩ :=
    generateInitialPipes_spec W H (computeProfile mode W H) rng 0 0
  refine ⟨?_, ?_, ?_⟩
  · intro p hp
    show p.id < (generateInitialPipes W H (computeProfile mode W H) rng 0 0).2.1
    have := hg2 p hp
    omega
  · intro i hi
    have hi2 : i ∈ ([] : List ℕ) := hi
    simp at hi2
  · exact hg3

/-- Re-running the effect on a live world yields a well-formed scoring
state. -/
theorem reinitWorld_WF (mode : Mode) (W H : ℚ) (rng : ℕ → ℚ) (w : World) :
    WF (reinitWorld mode W H rng w) := by
  obtain ⟨hg1, hg2, hg3⟩ :=
    generateInitialPipes_spec W H (computeProfile mode W H) rng w.nextId w.ri
  refine ⟨?_, ?_, ?_⟩
  · intro p hp
    show p.id < (generateInitialPipes W H (computeProfile mode W H) rng w.nextId w.ri).2.1
    have := hg2 p hp
    omega
  · intro i hi
    have hi2 : i ∈ ([] : List ℕ) := hi
    simp at hi2
  · exact hg3

/-- flap preserves scoring-state well-formedness. -/
theorem flap_WF (rng : ℕ → ℚ) (w : World) (h : WF w) : WF (flap rng w) := by
  unfold flap
  split_ifs
  · exact resetGame_WF rng { w with running := true, paused := false }
  · exact resetGame_WF rng { w with paused := false }
  · exact h
  · exact h

/-- togglePause preserves scoring-state well-formedness. -/
theorem togglePause_WF (w : World) (h : WF w) : WF (togglePause w) := by
  unfold togglePause
  split
  · exact h
  · exact h

/-- The restart handler yields a well-formed scoring state. -/
theorem resetFull_WF (rng : ℕ → ℚ) (w : World) : WF (resetFull rng w) :=
  resetGame_WF rng w

/-- A tick preserves scoring-state well-formedness: recycled pipes take
fresh identities and credited identities stay below the counter. -/
theorem update_WF (rng : ℕ → ℚ) (w w' : World) (h : update rng w = some w')
    (hw : WF w) : WF w' := by
  obtain ⟨hw1, hw2, hw3⟩ := hw
  rcases update_cases rng w w' h with ⟨_, rfl⟩ | ⟨_, _, ps, nid, ri, hrr, hcase⟩
  · exact ⟨hw1, hw2, hw3⟩
  · obtain ⟨hle, hmem, hpres⟩ := recycleRefill_spec w.dispW w.dispH w.prof rng
      (movePipes w.prof w.pipes) w.nextId w.ri ps nid ri hrr
    have hmb : ∀ p ∈ movePipes w.prof w.pipes, p.id < w.nextId := by
      intro p hp
      unfold movePipes at hp
      rcases List.mem_map.mp hp with ⟨q, hq, rfl⟩
      exact hw1 q hq
    have hmn : ((movePipes w.prof w.pipes).map Pipe.id).Nodup := by
      rw [movePipes_ids]
      exact hw3
    obtain ⟨hpb, hpn⟩ := hpres hmb hmn
    have hscored : ∀ i ∈ (tickAcc w ps).scored, i < nid := by
      obtain ⟨new, s1, s2, s3, s4, s5, s6, s7⟩ := scoreLoop_spec w.prof
        (clampCeil (integrateBird w.prof w.bird)) ps
        ⟨w.score, w.best, w.writes, w.scored, false⟩
      have t1 : (tickAcc w ps).scored = new ++ w.scored := s1
      intro i hi
      rw [t1] at hi
      rcases List.mem_append.mp hi with hi | hi
      · obtain ⟨-, q, hq, hqid, -⟩ := s4 i hi
        have := hpb q hq
        omega
      · have := hw2 i hi
        omega
    rcases hcase with ⟨hgr, rfl⟩ | ⟨hgr, hinner⟩
    · obtain ⟨e1, e2, e3, e4, e5, e6, e7, e8, e9, e10⟩ := endGame_proj _
      refine ⟨?_, ?_, ?_⟩
      · rw [e1, e2]
        exact hpb
      · rw [e3, e2]
        dsimp only
        intro i hi
        have := hw2 i hi
        omega
      · rw [e1]
        exact hpn
    · rcases hinner with ⟨hd, rfl⟩ | ⟨hd, rfl⟩
      · obtain ⟨e1, e2, e3, e4, e5, e6, e7, e8, e9, e10⟩ := endGame_proj _
        refine ⟨?_, ?_, ?_⟩
        · rw [e1, e2]
          exact hpb
        · rw [e3, e2]
          exact hscored
        · rw [e1]
          exact hpn
      · exact ⟨hpb, hscored, hpn⟩

/-- Every reachable state has a well-formed scoring state. -/
theorem reachable_WF (stored : Option ℕ) (w : World) (h : Reachable stored w) :
    WF w := by
  induction h with
  | init mode W H rng => exact initWorld_WF mode W H rng stored
  | @step rng w1 w2 hr hu ih => exact update_WF rng w1 w2 hu ih
  | @flapStep rng w1 hr ih => exact flap_WF rng w1 ih
  | @pauseStep w1 hr ih => exact togglePause_WF w1 ih
  | @resetStep rng w1 hr ih => exact resetFull_WF rng w1
  | @reinitStep mode W H rng w1 hr ih => exact reinitWorld_WF mode W H rng w1

/-- C8 (amended): the persisted best-score value may be written several
times within one session - once on every tick whose new score exceeds
the current best - and along every reachable state the write log is
strictly increasing, bounded by the in-memory best, which itself never
falls below the single value read at startup (0 when nothing is
stored). -/
theorem reachable_writes_increasing (stored : Option ℕ) (w : World)
    (hR : Reachable stored w) :
    List.Pairwise (· < ·) w.writes ∧ (∀ v ∈ w.writes, v ≤ w.best)
    ∧ initBest stored ≤ w.best := by
  induction hR with
  | init mode W H rng =>
    refine ⟨?_, ?_, ?_⟩ <;> simp [initWorld]
  | @step rng w1 w2 hr hu ih =>
    obtain ⟨ih1, ih2, ih3⟩ := ih
    rcases update_cases rng w1 w2 hu with ⟨_, rfl⟩ | ⟨_, _, ps, nid, ri, hrr, hcase⟩
    · exact ⟨ih1, ih2, ih3⟩
    · obtain ⟨new, s1, s2, s3, s4, s5, s6, s7⟩ := scoreLoop_spec w1.prof
        (clampCeil (integrateBird w1.prof w1.bird)) ps
        ⟨w1.score, w1.best, w1.writes, w1.scored, false⟩
      have hw7 : List.Pairwise (· < ·) (tickAcc w1 ps).writes
          ∧ ∀ v ∈ (tickAcc w1 ps).writes, v ≤ (tickAcc w1 ps).best := s7 ih1 ih2
      have hb : w1.best ≤ (tickAcc w1 ps).best := s6
      rcases hcase with ⟨hgr, rfl⟩ | ⟨hgr, hinner⟩
      · obtain ⟨e1, e2, e3, e4, e5, e6, e7, e8, e9, e10⟩ := endGame_proj _
        refine ⟨?_, ?_, ?_⟩
        · rw [e6]
          exact ih1
        · rw [e6, e5]
          exact ih2
        · rw [e5]
          exact ih3
      · rcases hinner with ⟨hd, rfl⟩ | ⟨hd, rfl⟩
        · obtain ⟨e1, e2, e3, e4, e5, e6, e7, e8, e9, e10⟩ := endGame_proj _
          refine ⟨?_, ?_, ?_⟩
          · rw [e6]
            exact hw7.1
          · rw [e6, e5]
            exact hw7.2
          · rw [e5]
            exact le_trans ih3 hb
        · exact ⟨hw7.1, hw7.2, le_trans ih3 hb⟩
  | @flapStep rng w1 hr ih =>
    obtain ⟨ih1, ih2, ih3⟩ := ih
    unfold flap
    split_ifs
    · exact ⟨ih1, ih2, ih3⟩
    · exact ⟨ih1, ih2, ih3⟩
    · exact ⟨ih1, ih2, ih3⟩
    · exact ⟨ih1, ih2, ih3⟩
  | @pauseStep w1 hr ih =>
    obtain ⟨ih1, ih2, ih3⟩ := ih
    unfold togglePause
    split
    · exact ⟨ih1, ih2, ih3⟩
    · exact ⟨ih1, ih2, ih3⟩
  | @resetStep rng w1 hr ih =>
    obtain ⟨ih1, ih2, ih3⟩ := ih
    exact ⟨ih1, ih2, ih3⟩
  | @reinitStep mode W H rng w1 hr ih =>
    obtain ⟨ih1, ih2, ih3⟩ := ih
    exact ⟨ih1, ih2, ih3⟩

/-- C8 witness: the fresh mount with nothing stored. -/
theorem reachable_writes_increasing_witness :
    List.Pairwise (· < ·) w0.writes ∧ (∀ v ∈ w0.writes, v ≤ w0.best)
    ∧ initBest none ≤ w0.best :=
  reachable_writes_increasing none w0 (Reachable.init Mode.normal 960 480 rng0)

/-- C8 counterexample: a single session (437 frames from the fresh mount
with no stored best, certified in-session by runS) persists the best
score twice - value 1 on the tick the score first exceeds 0 and value 2
on the next scoring tick - refuting "written at most once per
session". -/
theorem session_two_writes_cx :
    w0.writes = [] ∧ w0.score = 0 ∧ w0.best = 0
    ∧ (runS rng0 schedB w0).map (fun w => (w.writes, w.score, w.best))
        = some ([1, 2], 2, 2) := by
  with_unfolding_all decide

/-- C3 (amended): on every tick from a reachable state, the scored set
only grows; the score rises by exactly the number of newly credited
identities; every newly credited identity belongs to a queued pipe whose
center is left of the bird's x and was never credited before; when the
tick completes its scoring loop (running, unpaused, and not terminal
afterwards) every pipe whose center is left of the bird is credited; and
every pipe that was not in the queue before the tick (a recycled or
refilled one) carries an identity that was never credited - credit is by
identity, not position. A tick that terminates early (ground hit or
collision at or before an obstacle) skips crediting, which is the one
correction to the claim (see the counterexample). -/
theorem update_scores_once (stored : Option ℕ) (rng : ℕ → ℚ) (w w' : World)
    (hR : Reachable stored w) (hu : update rng w = some w') :
    (∀ i ∈ w.scored, i ∈ w'.scored)
    ∧ w'.score = w.score + (w'.scored.filter fun i => decide (i ∉ w.scored)).length
    ∧ (∀ p ∈ w'.pipes, p.id ∈ w'.scored → p.id ∉ w.scored →
        p.x + (w.prof.pipeWidth : ℚ) / 2 < w'.bird.x)
    ∧ (w.running = true → w.paused = false → w'.gameOver = false →
        ∀ p ∈ w'.pipes, p.x + (w.prof.pipeWidth : ℚ) / 2 < w'.bird.x →
          p.id ∈ w'.scored)
    ∧ (∀ p ∈ w'.pipes, (∀ q ∈ w.pipes, q.id ≠ p.id) → p.id ∉ w.scored) := by
  obtain ⟨hwf1, hwf2, hwf3⟩ := reachable_WF stored w hR
  rcases update_cases rng w w' hu with ⟨hguard, rfl⟩ | ⟨hrun, hpau, ps, nid, ri, hrr, hcase⟩
  · refine ⟨fun i hi => hi, ?_, ?_, ?_, ?_⟩
    · rw [filter_self_nil]
      rfl
    · intro p hp hin hnin
      exact absurd hin hnin
    · intro h1 h2 _ p hp hx
      exfalso
      rcases hguard with hg | hg
      · rw [h1] at hg
        simp at hg
      · rw [h2] at hg
        simp at hg
    · intro p hp hno
      exact absurd rfl (hno p hp)
  · obtain ⟨hle, hmem, hpres⟩ := recycleRefill_spec w.dispW w.dispH w.prof rng
      (movePipes w.prof w.pipes) w.nextId w.ri ps nid ri hrr
    have hmb : ∀ p ∈ movePipes w.prof w.pipes, p.id < w.nextId := by
      intro p hp
      unfold movePipes at hp
      rcases List.mem_map.mp hp with ⟨q, hq, rfl⟩
      exact hwf1 q hq
    have hmn : ((movePipes w.prof w.pipes).map Pipe.id).Nodup := by
      rw [movePipes_ids]
      exact hwf3
    obtain ⟨hpb, hpn⟩ := hpres hmb hmn
    obtain ⟨new, s1, s2, s3, s4, s5, s6, s7⟩ := scoreLoop_spec w.prof
      (clampCeil (integrateBird w.prof w.bird)) ps
      ⟨w.score, w.best, w.writes, w.scored, false⟩
    have t1 : (tickAcc w ps).scored = new ++ w.scored := s1
    have t2 : (tickAcc w ps).score = w.score + new.length := s2
    have t4 : ∀ i ∈ new, i ∉ w.scored
        ∧ ∃ p, p ∈ ps ∧ p.id = i
        ∧ p.x + (w.prof.pipeWidth : ℚ) / 2
            < (clampCeil (integrateBird w.prof w.bird)).x := s4
    have t5 : (tickAcc w ps).died = false →
        ∀ p ∈ ps, p.x + (w.prof.pipeWidth : ℚ) / 2
            < (clampCeil (integrateBird w.prof w.bird)).x →
          p.id ∈ (tickAcc w ps).scored := s5
    have hflt : ((new ++ w.scored).filter fun i => decide (i ∉ w.scored)) = new :=
      filter_fresh_append new w.scored fun a ha => (t4 a ha).1
    have hfresh : ∀ p ∈ ps, (∀ q ∈ w.pipes, q.id ≠ p.id) → p.id ∉ w.scored := by
      intro p hp hno
      rcases hmem p hp with hmold | hnew2
      · exfalso
        unfold movePipes at hmold
        rcases List.mem_map.mp hmold with ⟨q, hq, rfl⟩
        exact hno q hq rfl
      · intro hsc
        have := hwf2 _ hsc
        omega
    rcases hcase with ⟨hgr, rfl⟩ | ⟨hgr, hinner⟩
    · obtain ⟨e1, e2, e3, e4, e5, e6, e7, e8, e9, e10⟩ := endGame_proj _
      refine ⟨?_, ?_, ?_, ?_, ?_⟩
      · intro i hi
        rw [e3]
        exact hi
      · rw [e4, e3]
        show w.score = w.score
            + ((w.scored.filter fun i => decide (i ∉ w.scored)).length)
        rw [filter_self_nil]
        rfl
      · intro p hp hin hnin
        rw [e3] at hin
        exact absurd hin hnin
      · intro _ _ hgo
        exfalso
        rw [endGame_terminal] at hgo
        simp at hgo
      · intro p hp hno
        rw [e1] at hp
        exact hfresh p hp hno
    · rcases hinner with ⟨hd, rfl⟩ | ⟨hd, rfl⟩
      · obtain ⟨e1, e2, e3, e4, e5, e6, e7, e8, e9, e10⟩ := endGame_proj _
        refine ⟨?_, ?_, ?_, ?_, ?_⟩
        · intro i hi
          rw [e3]
          show i ∈ (tickAcc w ps).scored
          rw [t1]
          exact List.mem_append_right _ hi
        · rw [e4, e3]
          show (tickAcc w ps).score = w.score
              + (((tickAcc w ps).scored.filter fun i => decide (i ∉ w.scored)).length)
          rw [t2, t1, hflt]
        · intro p hp hin hnin
          rw [e1] at hp
          rw [e3] at hin
          have hin2 : p.id ∈ new := by
            have : p.id ∈ new ++ w.scored := by rw [← t1]; exact hin
            rcases List.mem_append.mp this with h2 | h2
            · exact h2
            · exact absurd h2 hnin
          obtain ⟨-, q, hq, hqid, hqx⟩ := t4 p.id hin2
          have hpq : p = q :=
            List.inj_on_of_nodup_map hpn hp hq (by rw [hqid])
          rw [e7, hpq]
          exact hqx
        · intro _ _ hgo
          exfalso
          rw [endGame_terminal] at hgo
          simp at hgo
        · intro p hp hno
          rw [e1] at hp
          exact hfresh p hp hno
      · refine ⟨?_, ?_, ?_, ?_, ?_⟩
        · intro i hi
          show i ∈ (tickAcc w ps).scored
          rw [t1]
          exact List.mem_append_right _ hi
        · show (tickAcc w ps).score = w.score
              + (((tickAcc w ps).scored.filter fun i => decide (i ∉ w.scored)).length)
          rw [t2, t1, hflt]
        · intro p hp hin hnin
          have hin2 : p.id ∈ new := by
            have h3 : p.id ∈ (tickAcc w ps).scored := hin
            rw [t1] at h3
            rcases List.mem_append.mp h3 with h2 | h2
            · exact h2
            · exact absurd h2 hnin
          obtain ⟨-, q, hq, hqid, hqx⟩ := t4 p.id hin2
          have hp2 : p ∈ ps := hp
          have hpq : p = q :=
            List.inj_on_of_nodup_map hpn hp2 hq (by rw [hqid])
          show p.x + (w.prof.pipeWidth : ℚ) / 2
              < (clampCeil (integrateBird w.prof w.bird)).x
          rw [hpq]
          exact hqx
        · intro _ _ _ p hp hx
          show p.id ∈ (tickAcc w ps).scored
          exact t5 hd p hp hx
        · intro p hp hno
          exact hfresh p hp hno

/-- C3 witness: one tick from the fresh mount. -/
theorem update_scores_once_witness :
    (∀ i ∈ w0.scored, i ∈ w0t.scored)
    ∧ w0t.score = w0.score + (w0t.scored.filter fun i => decide (i ∉ w0.scored)).length
    ∧ (∀ p ∈ w0t.pipes, p.id ∈ w0t.scored → p.id ∉ w0.scored →
        p.x + (w0.prof.pipeWidth : ℚ) / 2 < w0t.bird.x)
    ∧ (w0.running = true → w0.paused = false → w0t.gameOver = false →
        ∀ p ∈ w0t.pipes, p.x + (w0.prof.pipeWidth : ℚ) / 2 < w0t.bird.x →
          p.id ∈ w0t.scored)
    ∧ (∀ p ∈ w0t.pipes, (∀ q ∈ w0.pipes, q.id ≠ p.id) → p.id ∉ w0.scored) :=
  update_scores_once none rng0 w0 w0t
    (Reachable.init Mode.normal 960 480 rng0) (by with_unfolding_all rfl)

/-- C3 counterexample: a reachable session (333 frames from the fresh
mount, certified by runS) reaches the state wApre in which pipe 0's
center (174) is still right of the bird's x (173) and nothing is
credited; on the very next tick - the first on which that center (now
171) is left of the bird - the bird collides with that same pipe, the
tick terminates early, and the score stays 0 with nothing credited: the
score is not incremented on the first crossing tick. -/
theorem score_skipped_on_death_tick_cx :
    runS rng0 schedApre w0 = some wApre
    ∧ wApre.gameOver = false ∧ wApre.score = 0 ∧ wApre.scored = []
    ∧ wApre.bird.x = 173
    ∧ (wApre.pipes.head?.map fun p => (p.id, p.x + (wApre.prof.pipeWidth : ℚ) / 2))
        = some (0, 174)
    ∧ (update rng0 wApre).map (fun w =>
        (w.gameOver, w.score, w.scored,
         w.pipes.head?.map fun p => (p.id, p.x + (w.prof.pipeWidth : ℚ) / 2)))
        = some (true, 0, [], some (0, 171)) := by
  refine ⟨?_, ?_, ?_, ?_, ?_, ?_, ?_⟩
  · with_unfolding_all rfl
  · with_unfolding_all decide
  · with_unfolding_all decide
  · with_unfolding_all decide
  · with_unfolding_all decide
  · with_unfolding_all decide
  · with_unfolding_all decide

end Flappy
